import Mathlib

/-!
Verification development for the `rrmap` repository.

The repository decodes two formats:
* a binary WAD container (`src/format/wad.rs`), modelled in namespace `Wadf`;
* the UDMF map-definition text format, read through two independent paths:
  - a hand-written tokenizer plus serde bridge (`src/udmf/de/mod.rs`,
    `src/udmf/de/serde_impl.rs`), modelled in namespace `Udmf`;
  - a PEG grammar plus map assembler (`src/map.rs`, `Map::from_str`),
    modelled in namespace `MapFmt`.

Modelling conventions:
* Rust strings are modelled as `List Char`; byte indices coincide with
  character indices on the ASCII inputs the claims concern.
* `f32` values are modelled as exact rationals (`ℚ`); every float literal
  appearing in a claim is exactly representable, so the rational model and
  the `f32` computation agree on all inputs considered.
* `i32` is modelled as `Int` with the parse-time overflow checks of
  `str::parse::<i32>` made explicit.
* Fallible Rust code returns `Except`; a Rust panic (out-of-bounds slice,
  `todo` macro, `expect` failure) is modelled as the `none` case of an
  outer `Option`.
* Bounded loops from the source (`while`, `loop`) are modelled with an
  explicit fuel parameter so that all definitions compute by kernel
  reduction; callers pass fuel strictly larger than the number of
  iterations the loop can make.
-/

deriving instance DecidableEq for Except

namespace Udmf

/-- Character constants, written via `Char.ofNat` codepoints. -/
def quoteChar : Char := Char.ofNat 34

def backslashChar : Char := Char.ofNat 92

def lbraceChar : Char := Char.ofNat 123

def rbraceChar : Char := Char.ofNat 125

def lparenChar : Char := Char.ofNat 40

def rparenChar : Char := Char.ofNat 41

def aposChar : Char := Char.ofNat 39

def caretChar : Char := Char.ofNat 94

/-- Model of `udmf::Value` (`src/udmf/mod.rs`): the self-describing value
type. `Float` carries an exact rational standing for the `f32`. -/
inductive Value where
  | Boolean (b : Bool)
  | Integer (n : Int)
  | Float (q : ℚ)
  | String (s : List Char)
  | Nil
deriving DecidableEq, Repr

/-- Model of `ErrorKind` from `src/udmf/de/mod.rs`; the single-field
`Error` struct is collapsed into its kind. -/
inductive Error where
  | UnexpectedChar (c : Char)
  | UnquotedString
  | InvalidKeyword (s : List Char)
  | InvalidType (s : String)
  | ExpectedIdent
  | ExpectedSeperator
  | Eof
deriving DecidableEq, Repr

/-- Model of `Token` from `src/udmf/de/mod.rs`. -/
inductive Token where
  | Ident (s : List Char)
  | Assignment
  | Seperator
  | StartBlock
  | EndBlock
deriving DecidableEq, Repr

/-- Model of `str::find` for a character predicate: index of the first
character satisfying `p`. -/
def find_idx (p : Char → Bool) : List Char → Option Nat
  | [] => none
  | c :: rest => if p c then some 0 else (find_idx p rest).map (· + 1)

/-- Model of `char::is_ascii_whitespace`. -/
def is_ascii_ws (c : Char) : Bool :=
  c == ' ' || c == '\t' || c == '\n' || c == '\x0c' || c == '\r'

/-- Model of `Tokenizer::skip_whitespace`: advance the cursor to the first
non-whitespace character (all input consumed when none remains). -/
def skip_whitespace (input : List Char) : List Char :=
  match find_idx (fun c => !is_ascii_ws c) input with
  | some idx => input.drop idx
  | none => []

/-- Model of `TryFrom<char> for Token` (structural symbols only). -/
def tokenOfChar (c : Char) : Option Token :=
  if c == '=' then some .Assignment
  else if c == lbraceChar then some .StartBlock
  else if c == rbraceChar then some .EndBlock
  else if c == ';' then some .Seperator
  else none

/-- Character class of an identifier start (`A-Z`, `a-z`, `_`). -/
def ident_start (c : Char) : Bool :=
  ('A' ≤ c && c ≤ 'Z') || ('a' ≤ c && c ≤ 'z') || c == '_'

/-- Character class of an identifier continuation. -/
def ident_char (c : Char) : Bool :=
  ident_start c || c.isDigit

/-- Model of `Tokenizer::next_ident`. Returns the identifier together with
the remaining input. -/
def next_ident (input : List Char) : Except Error (List Char × List Char) :=
  match input.head? with
  | none => .error .Eof
  | some ch =>
    if ident_start ch then
      match find_idx (fun c => !ident_char c) input with
      | some idx => .ok (input.take idx, input.drop idx)
      | none => .ok (input, [])
    else .error (.UnexpectedChar ch)

/-- Model of `Tokenizer::next_token`. -/
def next_token (input0 : List Char) : Except Error (Token × List Char) :=
  let input := skip_whitespace input0
  match input.head? with
  | none => (next_ident input).map (fun p => (Token.Ident p.1, p.2))
  | some c =>
    match tokenOfChar c with
    | some t => .ok (t, input.drop 1)
    | none => (next_ident input).map (fun p => (Token.Ident p.1, p.2))

/-- Value of a decimal digit run (`str::parse` accumulation). -/
def digits_to_nat (l : List Char) : Nat :=
  l.foldl (fun a c => a * 10 + (c.toNat - 48)) 0

/-- Model of `str::parse::<i32>` on an unsigned digit run: fails on an
empty run and on overflow past `i32::MAX`. -/
def parse_i32 (l : List Char) : Option Int :=
  if l.isEmpty then none
  else if digits_to_nat l ≤ 2147483647 then some (digits_to_nat l) else none

/-- Model of `str::parse::<f32>` applied to the slice `digits "." digits`
cut out by `read_number`; exact rational semantics: the decimal
`i.f` denotes `(i * 10^k + f) / 10^k` where `k` is the number of
fractional digits. Fails only when there is no digit on either side of
the point. -/
def parse_dec (l : List Char) : Option ℚ :=
  let ipart := l.takeWhile (fun c => c.isDigit)
  let rest := l.dropWhile (fun c => c.isDigit)
  match rest.head? with
  | some c =>
    if c == '.' then
      let fpart := rest.drop 1
      if ipart.isEmpty && fpart.isEmpty then none
      else some (mkRat
        (digits_to_nat ipart * 10 ^ fpart.length + digits_to_nat fpart)
        (10 ^ fpart.length))
    else none
  | none => none

/-- Multiplication of an exact rational by a power of ten, the model of
`10f32.powi(exp) * output` in the exponent branch of `read_number`. -/
def mul_pow10 (q : ℚ) (n : Int) : ℚ :=
  if 0 ≤ n then mkRat (q.num * ((10 ^ n.toNat : Nat) : Int)) q.den
  else mkRat q.num (q.den * 10 ^ (-n).toNat)

/-- The error produced by the numeric-parse failure closures in
`read_number`: `UnexpectedChar` of the first remaining character, or
`Eof` when no input remains. -/
def num_err (l : List Char) : Error :=
  match l.head? with
  | some c => .UnexpectedChar c
  | none => .Eof

/-- Value of `e1` in `read_number`: index of the first non-digit
character, or the length of the input. -/
def digit_run_end (l : List Char) : Nat :=
  match find_idx (fun c => !c.isDigit) l with
  | some idx => idx
  | none => l.length

/-- The body of `Tokenizer::read_number` after the sign character has
been peeked (and consumed when explicit): `inp` is the cursor after the
sign, `sign` the peeked character (a digit when no explicit sign was
present). -/
def read_number_core (sign : Char) (inp : List Char) :
    Option (Except Error (Value × List Char)) :=
  let e1 := digit_run_end inp
  match (inp.drop e1).head? with
    | some c =>
      if c == '.' then
        -- float branch
        let e2 :=
          match find_idx (fun c => !c.isDigit) (inp.drop (e1 + 1)) with
          | some k => k + e1 + 1
          | none => inp.length
        match parse_dec (inp.take e2) with
        | none => some (.error (num_err inp))
        | some q0 =>
          let q := if sign == '-' then -q0 else q0
          let inp2 := inp.drop e2
          match inp2.head? with
          | some c2 =>
            if c2 == 'e' || c2 == 'E' then
              let inp3 := inp2.drop 1
              match inp3.head? with
              | none => some (.error .Eof)
              | some esign =>
                let inp4 := if esign == '+' || esign == '-' then inp3.drop 1 else inp3
                let e3 := digit_run_end inp4
                match parse_i32 (inp4.take e3) with
                | none => some (.error (num_err inp4))
                | some n0 =>
                  let n : Int := if esign == '-' then -n0 else n0
                  some (.ok (.Float (mul_pow10 q n), inp4.drop e3))
            else some (.ok (.Float q, inp2))
          | none => some (.ok (.Float q, inp2))
      else
        -- integer branch
        match parse_i32 (inp.take e1) with
        | none => some (.error (num_err inp))
        | some n0 =>
          let n := if sign == '-' then -n0 else n0
          some (.ok (.Integer n, inp.drop e1))
    | none =>
      -- end of input after the digit run: integer branch
      match parse_i32 (inp.take e1) with
      | none => some (.error (num_err inp))
      | some n0 =>
        let n := if sign == '-' then -n0 else n0
        some (.ok (.Integer n, inp.drop e1))

/-- Model of `Tokenizer::read_number` (`src/udmf/de/mod.rs` lines
196-308), the default numeric entry point: peek the sign, consume it
when it is `+` or `-`, then run the body. `read_number` has no
panicking path; the outer `Option` is kept for uniformity with the
other tokenizer entry points. -/
def read_number (input : List Char) : Option (Except Error (Value × List Char)) :=
  match input.head? with
  | none => some (.error .Eof)
  | some sign =>
    read_number_core sign (if sign == '+' || sign == '-' then input.drop 1 else input)

/-- Model of `char::is_ascii_hexdigit`. -/
def is_hex_digit (c : Char) : Bool :=
  c.isDigit || ('a' ≤ c && c ≤ 'f') || ('A' ≤ c && c ≤ 'F')

/-- Hexadecimal value of a digit character. -/
def hex_val (c : Char) : Nat :=
  if c.isDigit then c.toNat - 48
  else if 'a' ≤ c && c ≤ 'f' then c.toNat - 87
  else c.toNat - 55

/-- Model of `i32::from_str_radix(_, 16)` on a hex-digit run: fails on an
empty run and on overflow past `i32::MAX`. -/
def parse_hex_i32 (l : List Char) : Option Int :=
  if l.isEmpty then none
  else
    let v := l.foldl (fun a c => a * 16 + hex_val c) 0
    if v ≤ 2147483647 then some (v : Int) else none

/-- Model of `Tokenizer::read_number_zero_prefix` (`src/udmf/de/mod.rs`
lines 310-330), the explicitly invoked hex-entry parser. The `none`
results model its panics: the `todo` macro when the second character is
not `x`, and the `expect` on `from_str_radix` when the hex digit run is
empty or overflows. -/
def read_number_zero_pfx (input : List Char) : Option (Except Error (Value × List Char)) :=
  match input.get? 1 with
  | some c =>
    if c == 'x' then
      let inp := input.drop 2
      let en :=
        match find_idx (fun c => !is_hex_digit c) inp with
        | some idx => idx
        | none => inp.length
      match parse_hex_i32 (inp.take en) with
      | some v => some (.ok (.Integer v, inp.drop en))
      | none => none
    else none
  | none => none

/-- Model of the `while end < self.input.len()` scan loop in the string
branch of `Tokenizer::next_value`: starting from offset `e`, locate the
next unescaped quote. `.ok e` returns the final value of `end` (the loop
can also leave `end = input.length` without having found a quote);
`.error ()` models the early `Err(Error::unquoted_string())` return.
`none` is fuel exhaustion, unreachable for fuel `> input.length`. -/
def scan_end : Nat → List Char → Nat → Option (Except Unit Nat)
  | 0, _, _ => none
  | fuel + 1, input, e =>
    if e < input.length then
      match find_idx (fun c => c == quoteChar) (input.drop e) with
      | none => some (.error ())
      | some idx =>
        if ((input.drop e).take idx).getLast? = some backslashChar then
          scan_end fuel input (e + idx + 1)
        else some (.ok (e + idx))
    else some (.ok e)

/-- One step of the `unescape_string` loop (`src/udmf/de/mod.rs` lines
357-395): find the next backslash, copy everything before it, then apply
the lookup table to the following character. Fuel exhaustion (`[]` at
fuel 0) is unreachable for fuel `> s.length`. -/
def unescape_go : Nat → List Char → List Char
  | 0, _ => []
  | fuel + 1, s =>
    match find_idx (fun c => c == backslashChar) s with
    | none => s
    | some n =>
      let pre := s.take n
      let rest := s.drop (n + 1)
      match rest.head? with
      | some c =>
        pre ++ (if c == quoteChar then [quoteChar] else [backslashChar, c]) ++
          unescape_go fuel (rest.drop 1)
      | none => pre

/-- Model of `unescape_string`. -/
def unescape_string (s : List Char) : List Char :=
  unescape_go (s.length + 1) s

/-- Terminator characters of the keyword branch of `next_value`. -/
def keyword_term (c : Char) : Bool :=
  c == caretChar || c == lbraceChar || c == rbraceChar || c == lparenChar ||
    c == rparenChar || c == ';' || c == quoteChar || c == aposChar ||
    c == '\n' || c == '\t' || c == ' '

/-- Model of `Tokenizer::next_value` (`src/udmf/de/mod.rs` lines 99-164).
The result is `none` exactly when the Rust code panics; the panicking
path is the out-of-bounds slice `self.input[(end + 1)..]` taken when the
scan loop ends with `end = input.length` (input exhausted right after an
escaped quote, or an opening quote at the very end of input). -/
def next_value (input0 : List Char) : Option (Except Error (Value × List Char)) :=
  let input := skip_whitespace input0
  match input.head? with
  | none => some (.error .Eof)
  | some ch =>
    if ch == quoteChar then
      let inp := input.drop 1
      match scan_end (inp.length + 1) inp 0 with
      | none => none
      | some (.error ()) => some (.error .UnquotedString)
      | some (.ok en) =>
        if en + 1 ≤ inp.length then
          some (.ok (.String (unescape_string (inp.take en)), inp.drop (en + 1)))
        else none
    else if ch.isDigit || ch == '+' || ch == '-' then
      read_number input
    else
      let en :=
        match find_idx keyword_term input with
        | some idx => idx
        | none => input.length
      let kw := input.take en
      if kw = "true".data then some (.ok (.Boolean true, input.drop en))
      else if kw = "false".data then some (.ok (.Boolean false, input.drop en))
      else some (.error (.InvalidKeyword kw))

/-- Model of `Parser::next_key` (`src/udmf/de/mod.rs` lines 27-41):
`Ok None` on end of input, the identifier otherwise. -/
def next_key (input : List Char) : Except Error (Option (List Char) × List Char) :=
  match next_token input with
  | .error e => if e = .Eof then .ok (none, input) else .error e
  | .ok (Token.Ident id, rest) => .ok (some id, rest)
  | .ok (_, _) => .error .ExpectedIdent

/-- Model of the token dispatch in
`TopLevelDeserializer::deserialize_any` (`src/udmf/de/serde_impl.rs`
lines 62-83), with the value/map continuations abstracted: reports which
continuation a given input selects. `none` models the `todo` panic taken
when the first structural token is neither `=` nor an opening brace. -/
inductive TopLevelShape where
  | scalar (rest : List Char)
  | block (rest : List Char)
deriving DecidableEq, Repr

def top_level_dispatch (input : List Char) : Option (Except Error TopLevelShape) :=
  match next_token input with
  | .error e => some (.error e)
  | .ok (Token.Assignment, rest) => some (.ok (.scalar rest))
  | .ok (Token.StartBlock, rest) => some (.ok (.block rest))
  | .ok (_, _) => none

end Udmf

namespace MapFmt

/-!
Model of `src/map.rs`: the `textmap_parser` PEG grammar and the
`Map::from_str` assembler.

PEG semantics as implemented by the `peg` crate: ordered choice commits
to the first alternative that succeeds (a later failure of the enclosing
rule does not re-try the remaining alternatives), repetition is greedy,
and a failing `{?}` action makes its rule fail without consuming input.
A rule is a function from the remaining input to `Option` of result and
rest; `Option.orElse` on a shared start position is exactly committed
ordered choice.
-/

/-- Model of `map::Value`. `Float` carries an exact rational standing for
the `f32`. -/
inductive Value where
  | Bool (b : Bool)
  | String (s : List Char)
  | Integer (n : Int)
  | Float (q : ℚ)
  | Nil
deriving DecidableEq, Repr

/-- Model of `Value::type_name`; the static strings are modelled as
character lists like every other string. -/
def Value.type_name : Value → List Char
  | .Bool _ => "boolean".data
  | .String _ => "string".data
  | .Integer _ => "integer".data
  | .Float _ => "float".data
  | .Nil => "nil".data

/-- A PEG rule: remaining input to parsed value and rest, `none` on
failure (the caller's position is unchanged on failure). -/
abbrev P (α : Type) := List Char → Option (α × List Char)

/-- Characters excluded from the `keyword` rule. -/
def keyword_excluded (c : Char) : Bool :=
  c == Udmf.lbraceChar || c == Udmf.rbraceChar || c == Udmf.lparenChar ||
    c == Udmf.rparenChar || c == ';' || c == Udmf.quoteChar ||
    c == Udmf.aposChar || c == '\n' || c == '\t' || c == ' '

/-- Rule `keyword`: one or more non-excluded characters. -/
def keyword : P (List Char) := fun input =>
  let t := input.takeWhile (fun c => !keyword_excluded c)
  if t.isEmpty then none else some (t, input.drop t.length)

/-- Rule `boolean`. -/
def boolean : P Value := fun input =>
  match keyword input with
  | some (k, rest) =>
    if k = "true".data then some (.Bool true, rest)
    else if k = "false".data then some (.Bool false, rest)
    else none
  | none => none

/-- Rule `nil`. -/
def nilRule : P Value := fun input =>
  match keyword input with
  | some (k, rest) => if k = "nil".data then some (.Nil, rest) else none
  | none => none

/-- Single-character expectation. -/
def expectChar (c : Char) : P Unit := fun input =>
  match input.head? with
  | some d => if d == c then some ((), input.drop 1) else none
  | none => none

/-- Rule `quoted_string`: a quote, any run of non-quote characters, a
closing quote. No escape processing happens on this path. -/
def quoted_string : P Value := fun input => do
  let (_, r1) ← expectChar Udmf.quoteChar input
  let s := r1.takeWhile (fun c => !(c == Udmf.quoteChar))
  let r2 := r1.drop s.length
  let (_, r3) ← expectChar Udmf.quoteChar r2
  some (.String s, r3)

/-- The optional sign prefix `$(['+' | '-'])?`. -/
def opt_sign (input : List Char) : Option Char × List Char :=
  match input.head? with
  | some c => if c == '+' || c == '-' then (some c, input.drop 1) else (none, input)
  | none => (none, input)

/-- Rule `float`: optional sign, a nonempty digit run, a point, an
optional digit run. `f32::parse` on such a slice never fails (overflow
produces an infinity, not an error); the model is the exact rational. -/
def floatRule : P Value := fun input =>
  let (sign, r1) := opt_sign input
  let d1 := r1.takeWhile (fun c => c.isDigit)
  if d1.isEmpty then none
  else do
    let r2 := r1.drop d1.length
    let (_, r3) ← expectChar '.' r2
    let d2 := r3.takeWhile (fun c => c.isDigit)
    let r4 := r3.drop d2.length
    let q : ℚ := mkRat
      (Udmf.digits_to_nat d1 * 10 ^ d2.length + Udmf.digits_to_nat d2)
      (10 ^ d2.length)
    some (.Float (if sign = some '-' then -q else q), r4)

/-- Rule `integer_natural`: optional sign, a run starting with `1-9`
followed by any digits; `parse::<i32>` failure (overflow) fails the
rule. -/
def integer_natural : P Value := fun input =>
  let (sign, r1) := opt_sign input
  let d1 := r1.takeWhile (fun c => '1' ≤ c && c ≤ '9')
  if d1.isEmpty then none
  else
    let r2 := r1.drop d1.length
    let d2 := r2.takeWhile (fun c => c.isDigit)
    let r3 := r2.drop d2.length
    match Udmf.parse_i32 (d1 ++ d2) with
    | some n => some (.Integer (if sign = some '-' then -n else n), r3)
    | none => none

/-- Rule `integer_zero_start`: a literal `0` followed by any digits, no
sign. -/
def integer_zero_start : P Value := fun input => do
  let (_, r1) ← expectChar '0' input
  let d := r1.takeWhile (fun c => c.isDigit)
  let r2 := r1.drop d.length
  match Udmf.parse_i32 ('0' :: d) with
  | some n => some (Value.Integer n, r2)
  | none => none

/-- Rule `integer_hex`: `0x` then a nonempty hex digit run, decoded with
radix 16; `from_str_radix` failure (overflow) fails the rule. -/
def integer_hex : P Value := fun input => do
  let (_, r1) ← expectChar '0' input
  let (_, r2) ← expectChar 'x' r1
  let d := r2.takeWhile Udmf.is_hex_digit
  if d.isEmpty then none
  else
    match Udmf.parse_hex_i32 d with
    | some n => some (Value.Integer n, r2.drop d.length)
    | none => none

/-- Rule `integer`: ordered choice of the three integer forms. -/
def integer : P Value := fun input =>
  (integer_natural input).orElse fun _ =>
    (integer_zero_start input).orElse fun _ => integer_hex input

/-- Rule `value`. -/
def value : P Value := fun input =>
  (floatRule input).orElse fun _ =>
    (integer input).orElse fun _ =>
      (quoted_string input).orElse fun _ => boolean input

/-- Rule `value_and_nil`. -/
def value_and_nil : P Value := fun input =>
  (value input).orElse fun _ => nilRule input

/-- Rule `identifier`: a nonempty run of ASCII letters followed by any
run of letters, digits and underscores. -/
def identifier : P (List Char) := fun input =>
  let d1 := input.takeWhile (fun c => ('A' ≤ c && c ≤ 'Z') || ('a' ≤ c && c ≤ 'z'))
  if d1.isEmpty then none
  else
    let r1 := input.drop d1.length
    let d2 := r1.takeWhile (fun c =>
      ('A' ≤ c && c ≤ 'Z') || ('a' ≤ c && c ≤ 'z') || c.isDigit || c == '_')
    some (d1 ++ d2, r1.drop d2.length)

/-- Rule `_`: any run of space, newline and tab characters. -/
def ws (input : List Char) : List Char :=
  input.dropWhile (fun c => c == ' ' || c == '\n' || c == '\t')

/-- Rule `assignment_expr`: `identifier _ "=" _ value_and_nil _ ";"`. -/
def assignment_expr : P (List Char × Value) := fun input => do
  let (id, r1) ← identifier input
  let (_, r2) ← expectChar '=' (ws r1)
  let (v, r3) ← value_and_nil (ws r2)
  let (_, r4) ← expectChar ';' (ws r3)
  some ((id, v), r4)

/-- The loop of the separated repetition `e ** _`: try the separator and
a further element, backtracking to before the separator when the element
fails. Fuel exhaustion stops the loop early; every caller passes fuel
larger than the remaining input length while each element consumes at
least one character, so exhaustion is unreachable. -/
def sep_by_go (p : P α) : Nat → List α → List Char → List α × List Char
  | 0, acc, input => (acc.reverse, input)
  | fuel + 1, acc, input =>
    match p (ws input) with
    | some (a, r) => sep_by_go p fuel (a :: acc) r
    | none => (acc.reverse, input)

/-- Separated repetition `e ** _` (zero or more, never fails). -/
def sep_by (p : P α) (input : List Char) : List α × List Char :=
  match p input with
  | none => ([], input)
  | some (a, r) => sep_by_go p (r.length + 1) [a] r

/-- `HashMap` insertion: replace any existing binding of the key, model
order-irrelevant. -/
def al_insert (l : List (List Char × Value)) (k : List Char) (v : Value) :
    List (List Char × Value) :=
  l.filter (fun p => !(p.1 == k)) ++ [(k, v)]

/-- `HashMap::get`. -/
def al_get (l : List (List Char × Value)) (k : List Char) : Option Value :=
  (l.find? (fun p => p.1 == k)).map (·.2)

/-- Rule `expr_list`: assignments separated by whitespace, collected into
a `HashMap` (later assignments of a key overwrite earlier ones). -/
def expr_list (input : List Char) : List (List Char × Value) × List Char :=
  let (l, rest) := sep_by assignment_expr input
  (l.foldl (fun acc p => al_insert acc p.1 p.2) [], rest)

/-- Model of `Global`. -/
inductive Global where
  | Assign (name : List Char) (v : Value)
  | Block (ident : List Char) (contents : List (List Char × Value))
deriving DecidableEq, Repr

/-- Rule `block`: `identifier _ "{" _ expr_list _ "}"`. -/
def block : P Global := fun input => do
  let (id, r1) ← identifier input
  let (_, r2) ← expectChar Udmf.lbraceChar (ws r1)
  let (contents, r3) := expr_list (ws r2)
  let (_, r4) ← expectChar Udmf.rbraceChar (ws r3)
  some (.Block id contents, r4)

/-- Rule `global_expr`: assignment first, block second. -/
def global_expr : P Global := fun input =>
  ((assignment_expr input).map (fun p => (Global.Assign p.1.1 p.1.2, p.2))).orElse
    fun _ => block input

/-- The public rule `udmf`: `_ global_expr_list _`, requiring the whole
input to be consumed (a `peg` public rule fails on trailing input). -/
def udmf (input : List Char) : Option (List Global) :=
  let (gs, rest) := sep_by global_expr (ws input)
  if (ws rest).isEmpty then some gs else none

/-- Split on newline characters, as `str::split("\n")`. -/
def split_newline : List Char → List (List Char)
  | [] => [[]]
  | c :: rest =>
    if c == '\n' then [] :: split_newline rest
    else
      match split_newline rest with
      | l :: ls => (c :: l) :: ls
      | [] => [[c]]

/-- Model of `str::find("//")`: index of the first occurrence of two
consecutive slashes. -/
def find_slashes : List Char → Option Nat
  | [] => none
  | c :: rest =>
    if c == '/' && rest.head? == some '/' then some 0
    else (find_slashes rest).map (· + 1)

/-- Model of `preprocess`: strip each line at its first `//`, then
re-join appending a newline after every line. -/
def preprocess (input : List Char) : List Char :=
  ((split_newline input).map fun line =>
    (match find_slashes line with
     | some idx => line.take idx
     | none => line) ++ ['\n']).flatten

/-- Model of `map::ValueError`. -/
inductive ValueError where
  | MissingField (name : List Char)
  | InvalidType (tyname : List Char)
deriving DecidableEq, Repr

/-- Model of `map::Error`; the `peg` parse-error payload is not
modelled. -/
inductive Error where
  | Parse
  | Value (e : ValueError)
deriving DecidableEq, Repr

/-- Model of `Extras::get_float`. -/
def get_float (l : List (List Char × Value)) (name : List Char) :
    Except ValueError ℚ :=
  match al_get l name with
  | none => .error (.MissingField name)
  | some (.Float f) => .ok f
  | some v => .error (.InvalidType v.type_name)

/-- Model of `Extras::get_optional_float`. -/
def get_optional_float (l : List (List Char × Value)) (name : List Char) :
    Except ValueError (Option ℚ) :=
  match al_get l name with
  | none => .ok none
  | some (.Float f) => .ok (some f)
  | some v => .error (.InvalidType v.type_name)

/-- Model of `Extras::get_integer`. -/
def get_integer (l : List (List Char × Value)) (name : List Char) :
    Except ValueError Int :=
  match al_get l name with
  | none => .error (.MissingField name)
  | some (.Integer n) => .ok n
  | some v => .error (.InvalidType v.type_name)

/-- Model of `Extras::without`. -/
def without (l : List (List Char × Value)) (names : List (List Char)) :
    List (List Char × Value) :=
  l.filter (fun p => !(names.contains p.1))

/-- Model of `map::Thing`. -/
structure Thing where
  x : ℚ
  y : ℚ
  height : Option ℚ
  angle : Int
  kind : Int
  extras : List (List Char × Value)
deriving DecidableEq, Repr

/-- Model of `map::Vertex`. -/
structure Vertex where
  x : ℚ
  y : ℚ
  extras : List (List Char × Value)
deriving DecidableEq, Repr

/-- Model of `map::Map`. -/
structure Map where
  things : List Thing
  vertices : List Vertex
  extras : List (List Char × Value)
deriving DecidableEq, Repr

/-- One iteration of the global-routing loop in `Map::from_str`
(`src/map.rs` lines 167-198). -/
def apply_global (m : Map) (g : Global) : Except ValueError Map :=
  match g with
  | .Assign name v => .ok { m with extras := al_insert m.extras name v }
  | .Block ident contents =>
    if ident = "thing".data then do
      let x ← get_float contents "x".data
      let y ← get_float contents "y".data
      let height ← get_optional_float contents "height".data
      let angle ← get_integer contents "angle".data
      let kind ← get_integer contents "type".data
      .ok { m with things := m.things ++
        [⟨x, y, height, angle, kind,
          without contents
            ["x".data, "y".data, "height".data, "angle".data, "type".data]⟩] }
    else if ident = "vertex".data then do
      let x ← get_float contents "x".data
      let y ← get_float contents "y".data
      .ok { m with vertices := m.vertices ++
        [⟨x, y, without contents ["x".data, "y".data]⟩] }
    else
      -- unknown block: ignored (a TODO in the source)
      .ok m

/-- The whole routing loop over the parsed globals. -/
def from_globals (gs : List Global) : Except ValueError Map :=
  gs.foldlM apply_global { things := [], vertices := [], extras := [] }

/-- Model of `Map::from_str` (`src/map.rs` lines 159-201). -/
def from_str (input : List Char) : Except Error Map :=
  match udmf (preprocess input) with
  | none => .error .Parse
  | some gs =>
    match from_globals gs with
    | .ok m => .ok m
    | .error e => .error (.Value e)

end MapFmt

namespace Wadf

/-!
Model of `src/format/wad.rs`. The caller-supplied `Read + Seek` source is
modelled as a byte list `d` together with a cursor position; `read n`
yields `min n (d.length - pos)` bytes and advances the cursor by that
amount (the semantics of `std::io::Cursor`, the well-behaved random
access source the reader is used with), and `seek` always succeeds.
Each reading operation returns its `Except` result paired with the
cursor position it leaves behind.
-/

/-- Model of `wad::Error`; `Io` is unreachable for an in-memory source
and the `InvalidWadType` payload keeps the raw tag bytes. -/
inductive WadError where
  | Utf8
  | InvalidWadType (bytes : List Nat)
  | Io
  | UnexpectedEof
deriving DecidableEq, Repr

/-- Model of `Read::read` on a cursor over `d` at position `p`: the bytes
obtained and the new position. -/
def read_bytes (d : List Nat) (p n : Nat) : List Nat × Nat :=
  ((d.drop p).take n, p + min n (d.length - p))

/-- Little-endian `i32` of four bytes. -/
def i32_of_le (bs : List Nat) : Int :=
  match bs with
  | [b0, b1, b2, b3] =>
    let v : Nat := b0 + 256 * b1 + 65536 * b2 + 16777216 * b3
    if v < 2147483648 then (v : Int) else (v : Int) - 4294967296
  | _ => 0

/-- Model of `i32 as usize` on a 64-bit target. -/
def usize_of_i32 (n : Int) : Nat :=
  (n % 18446744073709551616).toNat

/-- Model of `<i32 as ByteRead>::read` (`src/format/wad.rs` lines
291-304): read four bytes, failing with `UnexpectedEof` on a short
read. -/
def i32_read (d : List Nat) (p : Nat) : Except WadError Int × Nat :=
  let (bs, p1) := read_bytes d p 4
  (if bs.length = 4 then .ok (i32_of_le bs) else .error .UnexpectedEof, p1)

/-- UTF-8 validity of a byte list, following the table used by
`std::str::from_utf8`. -/
def valid_utf8 : List Nat → Bool
  | [] => true
  | b :: rest =>
    if b < 128 then valid_utf8 rest
    else if 194 ≤ b && b ≤ 223 then
      match rest with
      | c :: r => 128 ≤ c && c ≤ 191 && valid_utf8 r
      | [] => false
    else if b == 224 then
      match rest with
      | c :: c2 :: r => 160 ≤ c && c ≤ 191 && 128 ≤ c2 && c2 ≤ 191 && valid_utf8 r
      | _ => false
    else if (225 ≤ b && b ≤ 236) || b == 238 || b == 239 then
      match rest with
      | c :: c2 :: r => 128 ≤ c && c ≤ 191 && 128 ≤ c2 && c2 ≤ 191 && valid_utf8 r
      | _ => false
    else if b == 237 then
      match rest with
      | c :: c2 :: r => 128 ≤ c && c ≤ 159 && 128 ≤ c2 && c2 ≤ 191 && valid_utf8 r
      | _ => false
    else if b == 240 then
      match rest with
      | c :: c2 :: c3 :: r =>
        144 ≤ c && c ≤ 191 && 128 ≤ c2 && c2 ≤ 191 && 128 ≤ c3 && c3 ≤ 191 &&
          valid_utf8 r
      | _ => false
    else if 241 ≤ b && b ≤ 243 then
      match rest with
      | c :: c2 :: c3 :: r =>
        128 ≤ c && c ≤ 191 && 128 ≤ c2 && c2 ≤ 191 && 128 ≤ c3 && c3 ≤ 191 &&
          valid_utf8 r
      | _ => false
    else if b == 244 then
      match rest with
      | c :: c2 :: c3 :: r =>
        128 ≤ c && c ≤ 143 && 128 ≤ c2 && c2 ≤ 191 && 128 ≤ c3 && c3 ≤ 191 &&
          valid_utf8 r
      | _ => false
    else false

/-- Model of `read_string::<N, _>` (`src/format/wad.rs` lines 269-288):
read exactly `n` bytes (short read is `UnexpectedEof`), truncate at the
first null byte, require UTF-8 validity. The decoded name is kept as its
byte list (UTF-8 decoding is injective, so name equality is byte
equality). -/
def read_string (n : Nat) (d : List Nat) (p : Nat) :
    Except WadError (List Nat) × Nat :=
  let (bs, p1) := read_bytes d p n
  (if bs.length = n then
    let nb := bs.takeWhile (fun b => !(b == 0))
    if valid_utf8 nb then .ok nb else .error .Utf8
   else .error .UnexpectedEof, p1)

/-- Model of `WadType`. -/
inductive WadType where
  | Iwad
  | Pwad
deriving DecidableEq, Repr

/-- Model of `Header`. -/
structure Header where
  ident : WadType
  num_lumps : Nat
  info_table_offset : Nat
deriving DecidableEq, Repr

/-- Model of `<Header as ByteRead>::read` (`src/format/wad.rs` lines
97-126). -/
def Header.read (d : List Nat) (p : Nat) : Except WadError Header × Nat :=
  let (identB, p1) := read_bytes d p 4
  if identB.length < 4 then (.error .UnexpectedEof, p1)
  else if identB = [73, 87, 65, 68] ∨ identB = [80, 87, 65, 68] then
    let t : WadType := if identB = [73, 87, 65, 68] then .Iwad else .Pwad
    let (r1, p2) := i32_read d p1
    match r1 with
    | .error e => (.error e, p2)
    | .ok n1 =>
      let (r2, p3) := i32_read d p2
      match r2 with
      | .error e => (.error e, p3)
      | .ok n2 => (.ok ⟨t, usize_of_i32 n1, usize_of_i32 n2⟩, p3)
  else (.error (.InvalidWadType identB), p1)

/-- Model of `LumpInfo`. -/
structure LumpInfo where
  file_pos : Nat
  size : Nat
  name : List Nat
deriving DecidableEq, Repr

/-- Model of `<LumpInfo as ByteRead>::read` (`src/format/wad.rs` lines
168-179). -/
def LumpInfo.read (d : List Nat) (p : Nat) : Except WadError LumpInfo × Nat :=
  let (r1, p1) := i32_read d p
  match r1 with
  | .error e => (.error e, p1)
  | .ok pos =>
    let (r2, p2) := i32_read d p1
    match r2 with
    | .error e => (.error e, p2)
    | .ok sz =>
      let (r3, p3) := read_string 8 d p2
      match r3 with
      | .error e => (.error e, p3)
      | .ok nm => (.ok ⟨usize_of_i32 pos, usize_of_i32 sz, nm⟩, p3)

/-- The `(0..num_lumps).map(...).collect::<Result<Vec<_>, _>>()` loop of
`LumpInfo::read_of`: sequential reads, stopping at the first error. -/
def lump_info_go (d : List Nat) (p : Nat) : Nat → Except WadError (List LumpInfo) × Nat
  | 0 => (.ok [], p)
  | n + 1 =>
    let (r, p1) := LumpInfo.read d p
    match r with
    | .error e => (.error e, p1)
    | .ok info =>
      let (rs, p2) := lump_info_go d p1 n
      (rs.map (info :: ·), p2)

/-- Model of `LumpInfo::read_of` (`src/format/wad.rs` lines 148-165):
save the cursor, seek to the directory, read `num_lumps` entries, restore
the cursor on every exit path. -/
def LumpInfo.read_of (d : List Nat) (p : Nat) (h : Header) :
    Except WadError (List LumpInfo) × Nat :=
  let old_cursor := p
  let (result, _pAfter) := lump_info_go d h.info_table_offset h.num_lumps
  (result, old_cursor)

/-- The per-entry closure of `LumpData::read_of` (`src/format/wad.rs`
lines 213-233): a zero-size entry yields an empty buffer with no seek or
read; a nonzero entry seeks to its offset and must read exactly `size`
bytes. -/
def read_lump (d : List Nat) (p : Nat) (info : LumpInfo) :
    Except WadError (List Nat) × Nat :=
  if 0 < info.size then
    let p1 := info.file_pos
    let (bs, p2) := read_bytes d p1 info.size
    (if bs.length = info.size then .ok bs else .error .UnexpectedEof, p2)
  else (.ok [], p)

/-- The collect loop of `LumpData::read_of`. -/
def lump_data_go (d : List Nat) (p : Nat) :
    List LumpInfo → Except WadError (List (List Nat)) × Nat
  | [] => (.ok [], p)
  | info :: rest =>
    let (r, p1) := read_lump d p info
    match r with
    | .error e => (.error e, p1)
    | .ok buf =>
      let (rs, p2) := lump_data_go d p1 rest
      (rs.map (buf :: ·), p2)

/-- Model of `LumpData::read_of` (`src/format/wad.rs` lines 206-239):
save the cursor, read every entry's bytes, restore the cursor on every
exit path. -/
def LumpData.read_of (d : List Nat) (p : Nat) (infos : List LumpInfo) :
    Except WadError (List (List Nat)) × Nat :=
  let old_cursor := p
  let (result, _pAfter) := lump_data_go d p infos
  (result, old_cursor)

/-- Model of `Wad`. -/
structure Wad where
  header : Header
  lump_infos : List LumpInfo
  lump_data : List (List Nat)
deriving DecidableEq, Repr

/-- Model of `Wad::from_reader` (`src/format/wad.rs` lines 28-42). -/
def Wad.from_reader (d : List Nat) (p : Nat) : Except WadError Wad × Nat :=
  let (hr, p1) := Header.read d p
  match hr with
  | .error e => (.error e, p1)
  | .ok h =>
    let (ir, p2) := LumpInfo.read_of d p1 h
    match ir with
    | .error e => (.error e, p2)
    | .ok infos =>
      let (dr, p3) := LumpData.read_of d p2 infos
      match dr with
      | .error e => (.error e, p3)
      | .ok datas => (.ok ⟨h, infos, datas⟩, p3)

/-- Model of `Wad::lumps`: directory entries zipped with their data. -/
def Wad.lumps (w : Wad) : List (LumpInfo × List Nat) :=
  w.lump_infos.zip w.lump_data

/-- Model of `Wad::lump`: first entry with the given name, in stored
order. -/
def Wad.lump (w : Wad) (name : List Nat) : Option (LumpInfo × List Nat) :=
  w.lumps.find? (fun l => l.1.name == name)

end Wadf

/-! ## Further definitions used by the theorems -/

namespace Udmf

/-- Negation of a numeric `Value` (context for the statement that a
leading minus applies to the whole literal). -/
def neg_value : Value → Value
  | .Float q => .Float (-q)
  | .Integer n => .Integer (-n)
  | v => v

/-- Lift `neg_value` over a tokenizer result. -/
def neg_result (r : Option (Except Error (Value × List Char))) :
    Option (Except Error (Value × List Char)) :=
  r.map (fun x => x.map (fun p => (neg_value p.1, p.2)))

/-- Specification-side unescaping, transcribed from the spec's words: an
escape is exactly one backslash followed by a quote, unescaped by
dropping the backslash; any other backslash-prefixed character is
preserved literally, including the backslash. (A trailing lone backslash
has no prefixed character; the loop drops it.) -/
def spec_unescape : List Char → List Char
  | [] => []
  | c :: rest =>
    if c = backslashChar then
      match rest with
      | [] => []
      | d :: rest2 =>
        (if d = quoteChar then [quoteChar] else [backslashChar, d]) ++
          spec_unescape rest2
    else c :: spec_unescape rest

end Udmf

namespace MapFmt

/-- One step of the specification-side "last write wins" accumulator:
a matching top-level assignment overwrites the accumulated value, any
other global leaves it unchanged. -/
def assign_step (name : List Char) (acc : Option Value) : Global → Option Value
  | .Assign n v => if n == name then some v else acc
  | .Block _ _ => acc

/-- The value of the last top-level assignment of `name` in a parsed
global list, if any. -/
def last_assign (gs : List Global) (name : List Char) : Option Value :=
  gs.foldl (assign_step name) none

/-- Whether a global is a `thing` block. -/
def is_thing_block : Global → Bool
  | .Block id _ => id == "thing".data
  | .Assign _ _ => false

/-- Whether a global is a `vertex` block. -/
def is_vertex_block : Global → Bool
  | .Block id _ => id == "vertex".data
  | .Assign _ _ => false

end MapFmt

/-- The input of the C2 end-to-end test block. -/
def c2_input : List Char :=
  ("thing \x7b x = 43.0; y = 459.0; angle = 30; type = 1; " ++
    "arg0 = \"WADSUP\"; \x7d").data

/-- The string-literal input of the C4 example:
`"Welcome to the \"Show\"!"`. -/
def c4_input : List Char :=
  "\"Welcome to the \\\"Show\\\"!\"".data

/-- The expected decode of the C4 example: literal quotes in place of
each escaped quote. -/
def c4_expected : List Char :=
  "Welcome to the \"Show\"!".data

/-- A three-character input (quote, backslash, quote) whose string
remainder ends right after an escaped quote with no closing quote. -/
def c6_input : List Char :=
  [Udmf.quoteChar, Udmf.backslashChar, Udmf.quoteChar]

/-- An unterminated string input ending right after an escaped quote:
quote, `a`, backslash, quote. -/
def c4_panic_input : List Char :=
  [Udmf.quoteChar, 'a', Udmf.backslashChar, Udmf.quoteChar]

/-- A minimal well-formed WAD byte image: `PWAD` tag, two zero-size
lumps both named `A`, directory at offset 12. -/
def demo_wad : List Nat :=
  [80, 87, 65, 68, 2, 0, 0, 0, 12, 0, 0, 0,
   0, 0, 0, 0, 0, 0, 0, 0, 65, 0, 0, 0, 0, 0, 0, 0,
   0, 0, 0, 0, 0, 0, 0, 0, 65, 0, 0, 0, 0, 0, 0, 0]

/-- The `Wad` value decoded from `demo_wad`. -/
def demo_wad_val : Wadf.Wad :=
  ⟨⟨.Pwad, 2, 12⟩, [⟨0, 0, [65]⟩, ⟨0, 0, [65]⟩], [[], []]⟩

/-! ## Helper lemmas -/

namespace Udmf

theorem mul_pow10_neg (q : ℚ) (n : Int) : mul_pow10 (-q) n = -(mul_pow10 q n) := by
  unfold mul_pow10
  split
  · rw [Rat.neg_num, Rat.neg_den, Int.neg_mul, ← Rat.neg_mkRat]
  · rw [Rat.neg_num, Rat.neg_den, ← Rat.neg_mkRat]

set_option maxHeartbeats 1000000 in
theorem read_number_core_neg (inp : List Char) (c : Char) (hc : (c == '-') = false) :
    read_number_core '-' inp = neg_result (read_number_core c inp) := by
  unfold read_number_core
  simp only [hc, beq_self_eq_true, if_true, Bool.false_eq_true, if_false]
  repeat' split
  all_goals simp_all [neg_result, neg_value, Except.map, mul_pow10_neg]

theorem digit_not_sign {c : Char} (h : c.isDigit = true) :
    (c == '+' || c == '-') = false := by
  cases h1 : (c == '+') with
  | true =>
    have := eq_of_beq h1
    subst this
    exact absurd h (by decide)
  | false =>
    cases h2 : (c == '-') with
    | true =>
      have := eq_of_beq h2
      subst this
      exact absurd h (by decide)
    | false => simp [h1, h2]

theorem read_number_neg_sign (s : List Char) (c : Char) (hh : s.head? = some c)
    (hd : c.isDigit = true) :
    read_number ('-' :: s) = neg_result (read_number s) := by
  have hns := digit_not_sign hd
  have hcm : (c == '-') = false := by
    cases hor : (c == '-') with
    | true => rw [hor] at hns; simp at hns
    | false => rfl
  unfold read_number
  rw [List.head?_cons, hh]
  simp only [show ('-' == '+' || '-' == '-') = true from rfl, if_true,
    List.drop_succ_cons, List.drop_zero, hns, Bool.false_eq_true, if_false]
  exact read_number_core_neg s c hcm

theorem spec_unescape_nil : spec_unescape [] = [] := rfl

theorem spec_unescape_cons_ne {c : Char} (h : ¬ c = backslashChar) (rest : List Char) :
    spec_unescape (c :: rest) = c :: spec_unescape rest := by
  rw [spec_unescape.eq_def]
  simp only [if_neg h]

theorem spec_unescape_bs_cons (d : Char) (rest2 : List Char) :
    spec_unescape (backslashChar :: d :: rest2) =
      (if d = quoteChar then [quoteChar] else [backslashChar, d]) ++ spec_unescape rest2 := by
  rw [spec_unescape.eq_def]
  simp

theorem spec_unescape_bs_nil : spec_unescape [backslashChar] = [] := by
  rw [spec_unescape.eq_def]
  simp

theorem find_idx_eq_none {p : Char → Bool} {l : List Char} :
    find_idx p l = none ↔ ∀ c ∈ l, p c = false := by
  induction l with
  | nil => simp [find_idx]
  | cons c rest ih =>
    simp only [find_idx, List.mem_cons]
    by_cases h : p c = true
    · simp [h]
    · simp only [Bool.not_eq_true] at h
      simp [h, ih]

theorem find_idx_some_split {p : Char → Bool} {l : List Char} {n : Nat}
    (h : find_idx p l = some n) :
    n < l.length ∧ (∀ c ∈ l.take n, p c = false) ∧
      ∃ c rest, p c = true ∧ l.drop n = c :: rest := by
  induction l generalizing n with
  | nil => simp [find_idx] at h
  | cons d rest ih =>
    by_cases hd : p d = true
    · simp [find_idx, hd] at h
      subst h
      exact ⟨by simp, by simp, d, rest, hd, rfl⟩
    · simp only [Bool.not_eq_true] at hd
      simp [find_idx, hd] at h
      obtain ⟨m, hm, rfl⟩ := h
      obtain ⟨h1, h2, c, r, hc, hr⟩ := ih hm
      refine ⟨by simpa using h1, ?_, c, r, hc, by simpa using hr⟩
      intro e he
      simp only [List.take_succ_cons, List.mem_cons] at he
      rcases he with rfl | he
      · exact hd
      · exact h2 e he

theorem spec_unescape_append_no_bs {pre : List Char}
    (h : ∀ c ∈ pre, ¬ c = backslashChar) (t : List Char) :
    spec_unescape (pre ++ t) = pre ++ spec_unescape t := by
  induction pre with
  | nil => simp
  | cons c rest ih =>
    have hc : ¬ c = backslashChar := h c (by simp)
    rw [List.cons_append, spec_unescape_cons_ne hc, ih (fun d hd => h d (by simp [hd]))]
    rfl

theorem spec_unescape_no_bs {s : List Char} (h : ∀ c ∈ s, ¬ c = backslashChar) :
    spec_unescape s = s := by
  have := spec_unescape_append_no_bs h []
  simpa [spec_unescape_nil] using this

theorem unescape_go_eq_spec :
    ∀ (fuel : Nat) (s : List Char), s.length < fuel →
      unescape_go fuel s = spec_unescape s := by
  intro fuel
  induction fuel with
  | zero => intro s h; exact absurd h (Nat.not_lt_zero _)
  | succ n ih =>
    intro s h
    rw [unescape_go]
    cases hf : find_idx (fun c => c == backslashChar) s with
    | none =>
      have hnone : ∀ c ∈ s, ¬ c = backslashChar := by
        intro c hc
        have := find_idx_eq_none.mp hf c hc
        simpa using this
      exact (spec_unescape_no_bs hnone).symm
    | some m =>
      obtain ⟨hlt, hpre, bsc, rest, hbsc, hdrop⟩ := find_idx_some_split hf
      have hbsc' : bsc = backslashChar := by simpa using hbsc
      subst hbsc'
      have hpre' : ∀ c ∈ s.take m, ¬ c = backslashChar := by
        intro c hc
        have := hpre c hc
        simpa using this
      have hrest : s.drop (m + 1) = rest := by
        rw [← List.tail_drop, hdrop]
        rfl
      conv_rhs => rw [← List.take_append_drop m s, hdrop]
      rw [spec_unescape_append_no_bs hpre']
      simp only [hrest]
      cases rest with
      | nil =>
        simp [spec_unescape_bs_nil]
      | cons c rest2 =>
        have hlen : rest2.length < n := by
          have hld := List.length_drop m s
          rw [hdrop] at hld
          simp only [List.length_cons] at hld
          omega
        simp only [List.head?, spec_unescape_bs_cons, List.drop_one, List.tail_cons]
        rw [ih rest2 hlen]
        by_cases hq : c = quoteChar
        · simp [hq]
        · have hq' : (c == quoteChar) = false := by simpa using hq
          simp [hq, hq']

theorem unescape_eq_spec (s : List Char) : unescape_string s = spec_unescape s :=
  unescape_go_eq_spec (s.length + 1) s (Nat.lt_succ_self _)

theorem unquoted_string_general (rest : List Char) (hne : rest ≠ [])
    (hq : ∀ c ∈ rest, (c == quoteChar) = false) :
    next_value (quoteChar :: rest) = some (.error .UnquotedString) := by
  have hfe : find_idx (fun c => c == quoteChar) rest = none := find_idx_eq_none.mpr hq
  have hlen : 0 < rest.length := List.length_pos.mpr hne
  have hsw : skip_whitespace (quoteChar :: rest) = quoteChar :: rest := by
    unfold skip_whitespace find_idx
    simp [show (!is_ascii_ws quoteChar) = true by decide]
  unfold next_value
  rw [hsw]
  simp only [List.head?, beq_self_eq_true, if_true, List.drop_succ_cons, List.drop_nil,
    List.drop_zero]
  rw [scan_end.eq_def]
  simp [hlen, hfe]

end Udmf

namespace MapFmt

theorem al_get_insert (l : List (List Char × Value)) (k : List Char) (v : Value)
    (name : List Char) :
    al_get (al_insert l k v) name = if name = k then some v else al_get l name := by
  unfold al_get al_insert
  induction l with
  | nil =>
    simp only [List.filter_nil, List.nil_append]
    by_cases h : name = k
    · have hb : (k == name) = true := by simp [h]
      simp [List.find?_cons, hb, h]
    · have hb : (k == name) = false := by
        simp only [beq_eq_false_iff_ne, ne_eq]
        exact fun e => h e.symm
      simp [List.find?_cons, hb, h]
  | cons p rest ih =>
    by_cases hk : (p.1 == k) = true
    · have hk' : p.1 = k := eq_of_beq hk
      rw [List.filter_cons_of_neg (by simp [hk])]
      rw [ih]
      by_cases h : name = k
      · simp [h]
      · have hpn : (p.1 == name) = false := by
          simp only [beq_eq_false_iff_ne, ne_eq, hk']
          exact fun e => h e.symm
        rw [if_neg h, if_neg h]
        simp [List.find?_cons, hpn]
    · rw [List.filter_cons_of_pos (by simp [hk])]
      by_cases hpn : (p.1 == name) = true
      · have hp1 : p.1 = name := eq_of_beq hpn
        have hnk : ¬ name = k := by
          intro e
          rw [e] at hp1
          rw [hp1] at hk
          simp at hk
        rw [List.cons_append, if_neg hnk]
        simp [List.find?_cons, hpn]
      · have hpn' : (p.1 == name) = false := by simpa using hpn
        rw [List.cons_append]
        simp only [List.find?_cons, hpn']
        exact ih

theorem foldl_assign_step (name : List Char) (gs : List Global) :
    ∀ a : Option Value, gs.foldl (assign_step name) a =
      match last_assign gs name with
      | some v => some v
      | none => a := by
  induction gs with
  | nil => intro a; simp [last_assign]
  | cons g rest ih =>
    intro a
    rw [List.foldl_cons, ih (assign_step name a g)]
    conv_rhs => rw [last_assign, List.foldl_cons, ih (assign_step name none g)]
    cases hl : last_assign rest name with
    | some w => simp
    | none =>
      cases g with
      | Assign n v =>
        simp only [assign_step]
        by_cases hn : (n == name) = true
        · simp [hn]
        · have hn' : (n == name) = false := by simpa using hn
          simp [hn']
      | Block id contents => simp [assign_step]

theorem apply_global_block {m0 m1 : Map} {id : List Char}
    {contents : List (List Char × Value)}
    (h : apply_global m0 (.Block id contents) = .ok m1) :
    m1.extras = m0.extras ∧
    m1.things.length = m0.things.length +
      (if is_thing_block (.Block id contents) then 1 else 0) ∧
    m1.vertices.length = m0.vertices.length +
      (if is_vertex_block (.Block id contents) then 1 else 0) := by
  by_cases ht : id = "thing".data
  · have hv : ¬ id = "vertex".data := by
      rw [ht]; decide
    simp only [apply_global, if_pos ht, bind, Except.bind] at h
    repeat' split at h
    all_goals cases h
    all_goals refine ⟨rfl, ?_, ?_⟩ <;>
      simp [is_thing_block, is_vertex_block, ht, hv]
  · by_cases hv : id = "vertex".data
    · simp only [apply_global, if_neg ht, if_pos hv, bind, Except.bind] at h
      repeat' split at h
      all_goals cases h
      all_goals refine ⟨rfl, ?_, ?_⟩ <;>
        simp [is_thing_block, is_vertex_block, ht, hv]
    · simp only [apply_global, if_neg ht, if_neg hv] at h
      injection h with h1
      subst h1
      refine ⟨rfl, ?_, ?_⟩ <;>
        simp [is_thing_block, is_vertex_block, ht, hv]

theorem from_globals_acc (gs : List Global) :
    ∀ (m0 m : Map), gs.foldlM apply_global m0 = .ok m →
      (∀ name, al_get m.extras name =
        match last_assign gs name with
        | some v => some v
        | none => al_get m0.extras name) ∧
      m.things.length = m0.things.length + gs.countP is_thing_block ∧
      m.vertices.length = m0.vertices.length + gs.countP is_vertex_block := by
  induction gs with
  | nil =>
    intro m0 m h
    simp only [List.foldlM_nil, pure, Except.pure] at h
    cases h
    refine ⟨fun name => ?_, by simp, by simp⟩
    simp [last_assign]
  | cons g rest ih =>
    intro m0 m h
    rw [List.foldlM_cons] at h
    cases ha : apply_global m0 g with
    | error e =>
      rw [ha] at h
      simp [bind, Except.bind] at h
    | ok m1 =>
      rw [ha] at h
      simp only [bind, Except.bind] at h
      obtain ⟨hget, hth, hvx⟩ := ih m1 m h
      cases g with
      | Assign n v =>
        simp only [apply_global] at ha
        cases ha
        refine ⟨fun name => ?_, ?_, ?_⟩
        · rw [hget name]
          have hcons : last_assign (Global.Assign n v :: rest) name =
              match last_assign rest name with
              | some w => some w
              | none => if n == name then some v else none := by
            rw [last_assign, List.foldl_cons, foldl_assign_step]
            rfl
          rw [hcons]
          cases last_assign rest name with
          | some w => rfl
          | none =>
            rw [al_get_insert]
            by_cases hn : n = name
            · have : (n == name) = true := by simp [hn]
              simp [this, hn]
            · have h1 : (n == name) = false := by simpa using hn
              have h2 : ¬ name = n := fun e => hn e.symm
              simp [h1, h2]
        · simpa [List.countP_cons, is_thing_block] using hth
        · simpa [List.countP_cons, is_vertex_block] using hvx
      | Block id contents =>
        obtain ⟨hex, hthb, hvxb⟩ := apply_global_block ha
        refine ⟨fun name => ?_, ?_, ?_⟩
        · rw [hget name, hex]
          have hcons : last_assign (Global.Block id contents :: rest) name =
              last_assign rest name := rfl
          rw [hcons]
        · rw [hth, hthb, List.countP_cons]
          omega
        · rw [hvx, hvxb, List.countP_cons]
          omega

end MapFmt

namespace Wadf

theorem lump_data_go_length (d : List Nat) :
    ∀ (p : Nat) (infos : List LumpInfo) (datas : List (List Nat)) (pf : Nat),
      lump_data_go d p infos = (.ok datas, pf) → datas.length = infos.length := by
  intro p infos
  induction infos generalizing p with
  | nil =>
    intro datas pf h
    simp only [lump_data_go, Prod.mk.injEq] at h
    obtain ⟨h1, _⟩ := h
    injection h1 with h2
    subst h2
    rfl
  | cons info rest ih =>
    intro datas pf h
    simp only [lump_data_go] at h
    rcases hr : read_lump d p info with ⟨r, p1⟩
    rw [hr] at h
    cases r with
    | error e => simp at h
    | ok buf =>
      rcases hg : lump_data_go d p1 rest with ⟨rs, p2⟩
      rw [hg] at h
      cases rs with
      | error e => simp [Except.map] at h
      | ok ds =>
        simp only [Except.map, Prod.mk.injEq] at h
        obtain ⟨h1, _⟩ := h
        injection h1 with h2
        subst h2
        simp [ih p1 ds p2 hg]

theorem read_of_ok_length {d : List Nat} {P : Nat} {infos : List LumpInfo}
    {datas : List (List Nat)}
    (h : (LumpData.read_of d P infos).1 = .ok datas) : datas.length = infos.length := by
  simp only [LumpData.read_of] at h
  rcases hg : lump_data_go d P infos with ⟨rs, p2⟩
  rw [hg] at h
  simp only at h
  subst h
  exact lump_data_go_length d P infos datas p2 hg

theorem find?_first_match {α : Type} (p : α → Bool) (l : List α) :
    (∀ e, l.find? p = some e →
      ∃ i : Nat, ∃ hi : i < l.length, l.get ⟨i, hi⟩ = e ∧ p e = true ∧
        ∀ j (hj : j < l.length), j < i → p (l.get ⟨j, hj⟩) = false) ∧
    (l.find? p = none → ∀ e ∈ l, p e = false) := by
  induction l with
  | nil => exact ⟨fun e h => by simp at h, fun _ e he => by simp at he⟩
  | cons a rest ih =>
    by_cases ha : p a = true
    · refine ⟨fun e h => ?_, fun h => ?_⟩
      · rw [List.find?_cons_of_pos _ ha] at h
        injection h with h1
        subst h1
        exact ⟨0, by simp, rfl, ha, fun j hj hj0 => absurd hj0 (by omega)⟩
      · rw [List.find?_cons_of_pos _ ha] at h
        simp at h
    · have ha' : p a = false := by simpa using ha
      refine ⟨fun e h => ?_, fun h e he => ?_⟩
      · rw [List.find?_cons_of_neg _ ha] at h
        obtain ⟨i, hi, hget, hpe, hfirst⟩ := ih.1 e h
        refine ⟨i + 1, by simpa using hi, by simpa using hget, hpe, ?_⟩
        intro j hj hji
        cases j with
        | zero => simpa using ha'
        | succ j' =>
          have hj' : j' < rest.length := by simpa using hj
          have := hfirst j' hj' (by omega)
          simpa using this
      · rw [List.find?_cons_of_neg _ ha] at h
        rcases he with _ | hem
        · exact ha'
        · exact ih.2 h e (by assumption)

end Wadf

/-! ## Claim C1 -/

/-- C1, counterexample. The claim says a text input lacking a top-level
`namespace` assignment fails decode with `MissingField("namespace")`.
The empty input contains no `namespace` (nor `version`) assignment, yet
`Map::from_str` returns a `Map` successfully: the assembler performs no
finalization check at all. -/
theorem c1_counterexample :
    MapFmt.from_str [] = .ok ⟨[], [], []⟩ := by decide

/-- C1, amended. `Map::from_str` requires neither `namespace` nor
`version`: an input with no `namespace` assignment can decode
successfully (the empty input yields the empty map, and top-level
`namespace`/`version` assignments land in the extras bag like any other
assignment); `MissingField` failures arise only from the mandatory
fields of `thing`/`vertex` blocks, e.g. a `thing` block without `x`
fails with `MissingField("x")`. -/
theorem c1_no_finalization_check :
    MapFmt.from_str [] = .ok ⟨[], [], []⟩ ∧
    MapFmt.from_str "thing \x7b \x7d".data =
      .error (.Value (.MissingField "x".data)) ∧
    MapFmt.from_str "version = 1;".data =
      .ok ⟨[], [], [("version".data, .Integer 1)]⟩ := by decide

/-! ## Claim C2 -/

/-- C2. Decoding the block
`thing { x = 43.0; y = 459.0; angle = 30; type = 1; arg0 = "WADSUP"; }`
yields exactly one `Thing` with `x = 43.0`, `y = 459.0`, `angle = 30`,
`kind = 1`, `height` explicitly absent (`none`, not a default), and an
extras bag holding exactly the entry `arg0` mapped to
`String("WADSUP")`. -/
theorem c2_thing_end_to_end :
    MapFmt.from_str c2_input =
      .ok ⟨[⟨43, 459, none, 30, 1, [("arg0".data, .String "WADSUP".data)]⟩],
        [], []⟩ := by decide

/-! ## Claim C3 -/

/-- C3. The default numeric entry point (`next_value` dispatching to
`read_number`) parses `4.2`, `-4.0`, `2.0E-1`, `4.0E9` to the stated
floats and `-10` to `Integer(-10)`; a leading minus negates the whole
literal (float or integer, including an exponent part); the hex literal
`0x005A` is decoded (to `Integer(90)`) only by the explicitly invoked
hex-entry parser `read_number_zero_prefix`, while the default entry
point never parses it as hex: it consumes only the leading `0` and
returns `Integer(0)` with `x005A` unconsumed. -/
theorem c3_numeric_parsing :
    Udmf.next_value "4.2".data = some (.ok (.Float (mkRat 21 5), [])) ∧
    Udmf.next_value "-4.0".data = some (.ok (.Float (-4), [])) ∧
    Udmf.next_value "2.0E-1".data = some (.ok (.Float (mkRat 1 5), [])) ∧
    Udmf.next_value "4.0E9".data = some (.ok (.Float 4000000000, [])) ∧
    Udmf.next_value "-10".data = some (.ok (.Integer (-10), [])) ∧
    (∀ (s : List Char) (c : Char), s.head? = some c → c.isDigit = true →
      Udmf.read_number ('-' :: s) = Udmf.neg_result (Udmf.read_number s)) ∧
    Udmf.read_number_zero_pfx "0x005A".data = some (.ok (.Integer 90, [])) ∧
    Udmf.next_value "0x005A".data = some (.ok (.Integer 0, "x005A".data)) :=
  ⟨by decide, by decide, by decide, by decide, by decide,
    Udmf.read_number_neg_sign, by decide, by decide⟩

/-- C3, witness: the sign conjunct applied at the concrete input `10`. -/
theorem c3_numeric_parsing_witness :
    ("10".data.head? = some '1' ∧ '1'.isDigit = true) ∧
    Udmf.read_number ('-' :: "10".data) = Udmf.neg_result (Udmf.read_number "10".data) :=
  ⟨⟨by decide, by decide⟩, c3_numeric_parsing.2.2.2.2.2.1 "10".data '1' (by decide) (by decide)⟩

/-! ## Claim C4 -/

/-- C4, counterexample. The claim says every string input without a
closing unescaped quote fails with an `UnquotedString` error. For the
input quote-`a`-backslash-quote (a string body ending right after an
escaped quote, with no closing quote), the scan loop exhausts the input
and the following slice `self.input[(end + 1)..]` starts past the end of
the remaining text: the tokenizer panics (modelled as `none`) instead of
returning any error. -/
theorem c4_counterexample : Udmf.next_value c4_panic_input = none := by decide

/-- C4, amended. Unescaping replaces each backslash-quote by a literal
quote and preserves every other backslash-prefixed character together
with its backslash (`unescape_string` agrees with the word-for-word
spec recursion `spec_unescape` on all inputs); an unterminated string
whose remaining text after the opening quote is nonempty and contains
no quote character fails with `UnquotedString`; when that remaining
text is empty (a lone opening quote at the end of input), or ends
immediately after an escaped quote (see the counterexample), the
tokenizer instead panics on an out-of-bounds slice; and the
`"Welcome to the \"Show\"!"` example decodes to the text with literal
quotes in place of each escaped quote. -/
theorem c4_string_unescaping :
    (∀ s : List Char, Udmf.unescape_string s = Udmf.spec_unescape s) ∧
    (∀ rest : List Char, rest ≠ [] → (∀ c ∈ rest, (c == Udmf.quoteChar) = false) →
      Udmf.next_value (Udmf.quoteChar :: rest) = some (.error .UnquotedString)) ∧
    Udmf.next_value [Udmf.quoteChar] = none ∧
    Udmf.next_value c4_input = some (.ok (.String c4_expected, [])) :=
  ⟨Udmf.unescape_eq_spec, Udmf.unquoted_string_general, by decide, by decide⟩

/-- C4, witness: the unterminated-string conjunct applied at the
concrete remainder `abc`. -/
theorem c4_string_unescaping_witness :
    ("abc".data ≠ [] ∧ (∀ c ∈ "abc".data, (c == Udmf.quoteChar) = false)) ∧
    Udmf.next_value (Udmf.quoteChar :: "abc".data) = some (.error .UnquotedString) :=
  ⟨⟨by decide, by decide⟩, c4_string_unescaping.2.1 "abc".data (by decide) (by decide)⟩

/-! ## Claim C5 -/

/-- C5. Every decoded Map preserves top-level assignments in its extras
bag with last-write-wins semantics, and no top-level assignment ever
contributes to a typed record sequence: for every successfully assembled
global list, the extras lookup of any name equals the value of the last
top-level assignment of that name (and is absent when the name was never
assigned), while the lengths of `things` and `vertices` equal exactly
the counts of `thing` and `vertex` blocks. Concretely, `sillykey = 7;`
decodes to a map whose extras hold exactly `sillykey ↦ Integer(7)` with
both typed sequences empty, and assigning `sillykey` twice keeps the
last value. -/
theorem c5_extras_last_write_wins :
    (∀ (gs : List MapFmt.Global) (m : MapFmt.Map), MapFmt.from_globals gs = .ok m →
      (∀ name, MapFmt.al_get m.extras name = MapFmt.last_assign gs name) ∧
      m.things.length = gs.countP MapFmt.is_thing_block ∧
      m.vertices.length = gs.countP MapFmt.is_vertex_block) ∧
    MapFmt.from_str "sillykey = 7;".data =
      .ok ⟨[], [], [("sillykey".data, .Integer 7)]⟩ ∧
    MapFmt.from_str "sillykey = 3; sillykey = 7;".data =
      .ok ⟨[], [], [("sillykey".data, .Integer 7)]⟩ := by
  refine ⟨fun gs m h => ?_, by decide, by decide⟩
  obtain ⟨hget, hth, hvx⟩ := MapFmt.from_globals_acc gs _ m h
  refine ⟨fun name => ?_, by simpa using hth, by simpa using hvx⟩
  rw [hget name]
  cases MapFmt.last_assign gs name with
  | some w => rfl
  | none => simp [MapFmt.al_get]

/-- C5, witness: the general conjunct applied to the one-assignment
global list. -/
theorem c5_extras_last_write_wins_witness :
    MapFmt.from_globals [MapFmt.Global.Assign "sillykey".data (.Integer 7)] =
      .ok ⟨[], [], [("sillykey".data, .Integer 7)]⟩ ∧
    MapFmt.al_get [("sillykey".data, MapFmt.Value.Integer 7)] "sillykey".data =
      MapFmt.last_assign [MapFmt.Global.Assign "sillykey".data (.Integer 7)]
        "sillykey".data :=
  ⟨by decide,
    (c5_extras_last_write_wins.1 [MapFmt.Global.Assign "sillykey".data (.Integer 7)]
      ⟨[], [], [("sillykey".data, .Integer 7)]⟩ (by decide)).1 "sillykey".data⟩

/-! ## Claim C6 -/

/-- C6. The claim says the text-format entry points never panic; it
fails on the code. For the three-character input quote-backslash-quote,
`Tokenizer::next_value` scans past the escaped quote, leaves the loop
with `end` equal to the length of the remaining text, and then takes the
slice `self.input[(end + 1)..]`, which is out of bounds: the call
panics (modelled as `none`) instead of returning a value or an error.
(`TopLevelDeserializer::deserialize_any` likewise hits a `todo` panic
when the first structural token is neither `=` nor `{`, and
`read_number_zero_prefix` panics on `todo` or a failed `expect` for
non-`x` or overflowing inputs.) -/
theorem c6_next_value_panics :
    Udmf.next_value c6_input = none ∧
    Udmf.top_level_dispatch ";".data = none := by
  exact ⟨by decide, by decide⟩

/-! ## Claim C7 -/

/-- C7. Every successfully read container has directory and lump-data
lists of equal length, and `Wad::lump` returns the first entry (in
stored order) whose name matches exactly, or `none` when no entry
matches. -/
theorem c7_directory_aligned_and_first_match (d : List Nat) (p : Nat)
    (w : Wadf.Wad) (pf : Nat) (h : Wadf.Wad.from_reader d p = (.ok w, pf)) :
    w.lump_infos.length = w.lump_data.length ∧
    ∀ name : List Nat,
      (∀ e, w.lump name = some e →
        ∃ i : Nat, ∃ hi : i < w.lumps.length, w.lumps.get ⟨i, hi⟩ = e ∧
          e.1.name = name ∧
          ∀ j (hj : j < w.lumps.length), j < i →
            ¬ (w.lumps.get ⟨j, hj⟩).1.name = name) ∧
      (w.lump name = none → ∀ e ∈ w.lumps, ¬ e.1.name = name) := by
  constructor
  · simp only [Wadf.Wad.from_reader] at h
    repeat' split at h
    all_goals simp only [Prod.mk.injEq] at h
    all_goals obtain ⟨h1, h2⟩ := h
    all_goals cases h1
    exact (Wadf.read_of_ok_length (by assumption)).symm
  · intro name
    have hfm := Wadf.find?_first_match (fun l => l.1.name == name) w.lumps
    refine ⟨fun e he => ?_, fun he e hem => ?_⟩
    · obtain ⟨i, hi, hget, hpe, hfirst⟩ := hfm.1 e he
      refine ⟨i, hi, hget, by simpa using hpe, ?_⟩
      intro j hj hji
      have := hfirst j hj hji
      simpa using this
    · have := hfm.2 he e hem
      simpa using this

/-- C7, witness: the length conjunct on the concrete demo container,
which holds two zero-size lumps with the same name. -/
theorem c7_directory_aligned_witness :
    Wadf.Wad.from_reader demo_wad 0 = (.ok demo_wad_val, 12) ∧
    demo_wad_val.lump_infos.length = demo_wad_val.lump_data.length :=
  ⟨by decide,
    (c7_directory_aligned_and_first_match demo_wad 0 demo_wad_val 12 (by decide)).1⟩

/-! ## Claim C8 -/

/-- C8. Every primitive read that obtains fewer bytes than requested
fails with `UnexpectedEof`: the 32-bit integer read, the fixed-length
name read, and a lump-body read reaching past the end of the source all
fail, and a source too short for even the four tag bytes makes the whole
`from_reader` fail with `UnexpectedEof` (so no partial `Wad` exists).
Conversely a successful 32-bit read consumes exactly the four source
bytes at the cursor — nothing is zero-padded. -/
theorem c8_short_reads_eof :
    (∀ (d : List Nat) (p : Nat), d.length < p + 4 →
      (Wadf.i32_read d p).1 = .error .UnexpectedEof) ∧
    (∀ (d : List Nat) (p n : Nat), 0 < n → d.length < p + n →
      (Wadf.read_string n d p).1 = .error .UnexpectedEof) ∧
    (∀ (d : List Nat) (p : Nat) (info : Wadf.LumpInfo), 0 < info.size →
      d.length < info.file_pos + info.size →
      (Wadf.read_lump d p info).1 = .error .UnexpectedEof) ∧
    (∀ (d : List Nat) (p : Nat), d.length < p + 4 →
      (Wadf.Wad.from_reader d p).1 = .error .UnexpectedEof) ∧
    (∀ (d : List Nat) (p : Nat), p + 4 ≤ d.length →
      Wadf.i32_read d p = (.ok (Wadf.i32_of_le ((d.drop p).take 4)), p + 4)) := by
  have hlen : ∀ (d : List Nat) (p n : Nat), 0 < n → d.length < p + n →
      ((d.drop p).take n).length ≠ n := by
    intro d p n hn h
    rw [List.length_take, List.length_drop]
    omega
  refine ⟨?_, ?_, ?_, ?_, ?_⟩
  · intro d p h
    simp only [Wadf.i32_read, Wadf.read_bytes]
    rw [if_neg (hlen d p 4 (by omega) h)]
  · intro d p n hn h
    simp only [Wadf.read_string, Wadf.read_bytes]
    rw [if_neg (hlen d p n hn h)]
  · intro d p info hs h
    simp only [Wadf.read_lump, if_pos hs, Wadf.read_bytes]
    rw [if_neg (hlen d info.file_pos info.size hs h)]
  · intro d p h
    rcases hH : Wadf.Header.read d p with ⟨r, p1⟩
    have hl : ((d.drop p).take 4).length < 4 := by
      rw [List.length_take, List.length_drop]
      omega
    have hr : r = .error .UnexpectedEof := by
      simp only [Wadf.Header.read, Wadf.read_bytes] at hH
      rw [if_pos hl] at hH
      simp only [Prod.mk.injEq] at hH
      exact hH.1.symm
    subst hr
    simp only [Wadf.Wad.from_reader]
    rw [hH]
  · intro d p h
    have h4 : ((d.drop p).take 4).length = 4 := by
      rw [List.length_take, List.length_drop]
      omega
    simp only [Wadf.i32_read, Wadf.read_bytes]
    rw [if_pos h4]
    have : min 4 (d.length - p) = 4 := by omega
    rw [this]

/-- C8, witness: a three-byte source fails the integer read with
`UnexpectedEof`, while a four-byte source is read exactly. -/
theorem c8_short_reads_eof_witness :
    ([(1 : Nat), 2, 3].length < 0 + 4) ∧
    (Wadf.i32_read [1, 2, 3] 0).1 = .error .UnexpectedEof ∧
    (0 + 4 ≤ [(1 : Nat), 2, 3, 4].length) ∧
    Wadf.i32_read [1, 2, 3, 4] 0 = (.ok (Wadf.i32_of_le [1, 2, 3, 4]), 0 + 4) :=
  ⟨by decide, c8_short_reads_eof.1 [1, 2, 3] 0 (by decide), by decide,
    c8_short_reads_eof.2.2.2.2 [1, 2, 3, 4] 0 (by decide)⟩

/-! ## Claim C9 -/

/-- C9. Both the directory-reading pass and the lump-data-reading pass
return with the source cursor restored to its entry value, on every exit
path — the second component of each pass's result (the cursor it leaves
behind) equals the cursor it was given, whether the pass succeeded or
failed. -/
theorem c9_cursor_restored :
    (∀ (d : List Nat) (p : Nat) (h : Wadf.Header),
      (Wadf.LumpInfo.read_of d p h).2 = p) ∧
    (∀ (d : List Nat) (p : Nat) (infos : List Wadf.LumpInfo),
      (Wadf.LumpData.read_of d p infos).2 = p) :=
  ⟨fun _ _ _ => rfl, fun _ _ _ => rfl⟩

/-! ## Claim C10 -/

/-- C10. A zero-size directory entry produces an empty buffer with no
seek and no read — the cursor is left untouched and the entry's stored
offset is never consulted (the result does not depend on `file_pos`) —
while a nonzero-size entry seeks to its offset and reads exactly `size`
bytes from there. -/
theorem c10_zero_size_lumps :
    (∀ (d : List Nat) (p : Nat) (info : Wadf.LumpInfo), info.size = 0 →
      Wadf.read_lump d p info = (.ok [], p)) ∧
    (∀ (d : List Nat) (p : Nat) (info : Wadf.LumpInfo), 0 < info.size →
      info.file_pos + info.size ≤ d.length →
      Wadf.read_lump d p info =
        (.ok ((d.drop info.file_pos).take info.size), info.file_pos + info.size) ∧
      ((d.drop info.file_pos).take info.size).length = info.size) := by
  constructor
  · intro d p info h
    simp [Wadf.read_lump, h]
  · intro d p info hs h
    have hl : ((d.drop info.file_pos).take info.size).length = info.size := by
      rw [List.length_take, List.length_drop]
      omega
    refine ⟨?_, hl⟩
    simp only [Wadf.read_lump, if_pos hs, Wadf.read_bytes]
    rw [if_pos hl]
    have : min info.size (d.length - info.file_pos) = info.size := by omega
    rw [this]

/-- C10, witness: a zero-size entry with an out-of-range offset yields
an empty buffer without disturbing the cursor, and a two-byte entry
reads exactly its two bytes. -/
theorem c10_zero_size_lumps_witness :
    ((⟨99, 0, [65]⟩ : Wadf.LumpInfo).size = 0) ∧
    Wadf.read_lump [1, 2, 3] 7 ⟨99, 0, [65]⟩ = (.ok [], 7) ∧
    (0 < (⟨1, 2, [66]⟩ : Wadf.LumpInfo).size ∧
      (⟨1, 2, [66]⟩ : Wadf.LumpInfo).file_pos +
        (⟨1, 2, [66]⟩ : Wadf.LumpInfo).size ≤ [(9 : Nat), 8, 7].length) ∧
    Wadf.read_lump [9, 8, 7] 0 ⟨1, 2, [66]⟩ = (.ok [8, 7], 1 + 2) :=
  ⟨rfl, c10_zero_size_lumps.1 [1, 2, 3] 7 ⟨99, 0, [65]⟩ rfl, ⟨by decide, by decide⟩,
    (c10_zero_size_lumps.2 [9, 8, 7] 0 ⟨1, 2, [66]⟩ (by decide) (by decide)).1⟩

